import Mathlib

/-!
Shallow embedding of the logviewer paging screen buffer
(src/lib/screen_buffer.py) and the Select window's position setter
(src/logviewer/windows.py).

Python integers are modelled as `Int` (arbitrary precision, no overflow).
A record's non-message payload fields are opaque to the buffer; they are
modelled as `Int` values that are merely copied around.  `message` is a
`List Char` so that splitting on the newline character can be modelled
exactly.  Fields of `ScreenBuffer` that Python initialises to `None`
before first assignment (`_bottom_seen`, `_stopped`, `_invalid`) are
modelled as `Option Bool`, with `none` standing for Python `None`
(falsy).  The `_thread` field is modelled by the `Bool` saying whether a
thread object is currently stored.  Locks and the condition variable
serialise access; the state transformation each method performs under
the lock is what is modelled here.  Methods that conditionally call
`_notify_observers` return a `Bool` alongside the new state recording
whether the observers were notified.
-/

namespace LogViewer

/-- A record as consumed by the buffer: the dict handed to
`ScreenBuffer.Line`, with the keys read by `Line.__init__`. -/
structure Record where
  id : Int
  datetime : Int
  host : Int
  program : Int
  facility : Int
  level : Int
  message : List Char
deriving DecidableEq, Repr

/-- `ScreenBuffer.Line`: one visible row, all record fields plus the
continuation flag (`Line.__init__`, screen_buffer.py lines 38-47). -/
structure Line where
  id : Int
  datetime : Int
  host : Int
  program : Int
  facility : Int
  level : Int
  message : List Char
  is_continuation : Bool
deriving DecidableEq, Repr

/-- `Line.__init__`: copy every field of the record dict and store the
continuation flag. -/
def mkLine (data : Record) (is_cont : Bool) : Line :=
  { id := data.id
    datetime := data.datetime
    host := data.host
    program := data.program
    facility := data.facility
    level := data.level
    message := data.message
    is_continuation := is_cont }

/-- Python `str.split` with an explicit single-character separator
(`'\n'`), on the character list of the string: `"".split` gives one
empty chunk, and each separator occurrence starts a new chunk. -/
def splitNl : List Char → List (List Char)
  | [] => [[]]
  | c :: cs =>
    if c = '\n' then [] :: splitNl cs
    else
      match splitNl cs with
      | [] => [[c]]
      | m :: ms => (c :: m) :: ms

/-- `ScreenBuffer._build_lines` (lines 101-106): split the message on
newlines and yield, for the i-th chunk, a `Line` built from a copy of
the record whose message is replaced by the chunk, continuation flag
`i > 0`. -/
def build_lines (rec : Record) : List Line :=
  (splitNl rec.message).enum.map
    (fun p => mkLine { rec with message := p.2 } (decide (0 < p.1)))

/-- A prefetch instruction `(start, desc, count)` as produced by
`get_buffer_instructions`: anchor id (`none` for the initial fetch),
direction flag, record count. -/
structure Instr where
  start : Option Int
  desc : Bool
  count : Int
deriving DecidableEq, Repr

/-- The state of a `ScreenBuffer` object (screen_buffer.py lines
81-99): configuration, the line window, the viewport position, and the
lifecycle flags.  The observer set, lock and condition variable carry
no data relevant to the modelled transitions. -/
structure SB where
  page_size : Int
  buffer_size : Int
  low_buffer_threshold : Int
  lines : List Line
  position : Int
  bottom_seen : Option Bool
  stopped : Option Bool
  invalid : Option Bool
  thread : Bool
deriving DecidableEq, Repr

/-- `ScreenBuffer.__init__` followed by the `clear()` it ends with: the
fields start as Python `None` (here `none` / no thread) and `clear`
makes `lines` the empty list with `position` 0. -/
def screenBufferInit (page_size buffer_size low_buffer_threshold : Int) : SB :=
  { page_size := page_size
    buffer_size := buffer_size
    low_buffer_threshold := low_buffer_threshold
    lines := []
    position := 0
    bottom_seen := none
    stopped := none
    invalid := none
    thread := false }

/-- `ScreenBuffer._set_position` (lines 108-115): clamp the requested
position into `[0, max(len(lines) - page_size, 0)]`. -/
def set_position (b : SB) (pos : Int) : SB :=
  let p_min : Int := 0
  let p_max : Int := max ((b.lines.length : Int) - b.page_size) 0
  if pos < p_min then { b with position := p_min }
  else if pos > p_max then { b with position := p_max }
  else { b with position := pos }

/-- `ScreenBuffer._check_page_size` (lines 117-119): if the viewport
no longer fits, move the position back so that it does. -/
def check_page_size (b : SB) : SB :=
  if b.position + b.page_size > (b.lines.length : Int) then
    set_position b ((b.lines.length : Int) - b.page_size)
  else b

/-- `ScreenBuffer._invalidate` (lines 137-143): set the invalid flag
(and signal the condition variable, which carries no state). -/
def invalidate (b : SB) : SB :=
  { b with invalid := some true }

/-- The `page_size` setter (lines 150-154): store the new value, then
re-check that the viewport fits. -/
def set_page_size (b : SB) (val : Int) : SB :=
  check_page_size { b with page_size := val }

/-- `ScreenBuffer.get_current_lines` (lines 156-160): the slice
`lines[position : position + page_size]`.  `position` is always
non-negative in reachable states, so the Python slice is drop-then-take
with the slice width `q - p = page_size`. -/
def get_current_lines (b : SB) : List Line :=
  (b.lines.drop b.position.toNat).take b.page_size.toNat

/-- `ScreenBuffer.go_to_previous_line` (lines 162-165). -/
def go_to_previous_line (b : SB) : SB :=
  invalidate (set_position b (b.position - 1))

/-- `ScreenBuffer.go_to_next_line` (lines 167-170). -/
def go_to_next_line (b : SB) : SB :=
  invalidate (set_position b (b.position + 1))

/-- `ScreenBuffer.go_to_previous_page` (lines 172-175). -/
def go_to_previous_page (b : SB) : SB :=
  invalidate (set_position b (b.position - b.page_size))

/-- `ScreenBuffer.go_to_next_page` (lines 177-180). -/
def go_to_next_page (b : SB) : SB :=
  invalidate (set_position b (b.position + b.page_size))

/-- `ScreenBuffer.prepend_record` (lines 182-192): inserting the i-th
generated line at index i puts the expanded lines, in order, in front
of the old ones; `cnt` counts the generated lines; the position is
shifted by `cnt` and clamped; observers are notified exactly when the
clamp changed the shifted position.  The returned `Bool` records the
notification. -/
def prepend_record (b : SB) (rec : Record) : SB × Bool :=
  let new := build_lines rec
  let cnt : Int := new.length
  let old_pos := b.position
  let b1 : SB := { b with lines := new ++ b.lines }
  let b2 := set_position b1 (b1.position + cnt)
  (b2, decide (old_pos + cnt ≠ b2.position))

/-- `ScreenBuffer.append_record` (lines 194-201): push the expanded
lines to the back; notify exactly when the old length was below the
page size.  The returned `Bool` records the notification. -/
def append_record (b : SB) (rec : Record) : SB × Bool :=
  let old_len : Int := b.lines.length
  let b1 : SB := { b with lines := b.lines ++ build_lines rec }
  (b1, decide (old_len < b.page_size))

/-- `ScreenBuffer.get_buffer_instructions` (lines 211-223): with a
non-empty line list (Python list truthiness) emit the forward
instruction when the viewport end is within `low_buffer_threshold` of
the buffer end, then the backward instruction when the position is
within `low_buffer_threshold` of the buffer start; with an empty list
emit the single oversized initial instruction. -/
def get_buffer_instructions (b : SB) : List Instr :=
  match b.lines with
  | [] => [⟨none, true, b.buffer_size + b.page_size⟩]
  | l :: ls =>
    (if b.position + b.page_size ≥ (b.lines.length : Int) - b.low_buffer_threshold then
      [⟨some ((l :: ls).getLast (List.cons_ne_nil l ls)).id, false, b.buffer_size⟩]
    else []) ++
    (if b.position ≤ b.low_buffer_threshold then
      [⟨some l.id, true, b.buffer_size⟩]
    else [])

/-- The inner `while True` loop of `ScreenBuffer.get_records` (lines
231-239): drain the stream one record at a time, decrementing `count`
and prepending when descending, appending otherwise.  The driver's
stream for one query is modelled as the list of records it yields
before returning `None`. -/
def drain (desc : Bool) : List Record → SB → Int → SB × Int
  | [], b, count => (b, count)
  | r :: rs, b, count =>
    drain desc rs (if desc then (prepend_record b r).1 else (append_record b r).1)
      (count - 1)

/-- One iteration of the `for` loop of `ScreenBuffer.get_records`
(lines 226-241): skip descending instructions once the bottom has been
seen (Python truthiness of `None`/`False` makes the test
`bottom_seen = some true`); otherwise open a query, drain it, and set
`bottom_seen` when the drain left `count` positive.  The second
component lists the queries opened. -/
def process_instr (d : Instr → List Record) (b : SB) (i : Instr) : SB × List Instr :=
  if i.desc = true ∧ b.bottom_seen = some true then (b, [])
  else
    let p := drain i.desc (d i) b i.count
    (if p.2 > 0 then { p.1 with bottom_seen := some true } else p.1, [i])

/-- `ScreenBuffer.get_records` (lines 225-241): compute the plan once,
then process its instructions in order.  The driver is the function
from a query's `(start, desc, count)` to the finite stream of records
`fetch_record` yields for it.  The second component is the list of
queries opened, in order. -/
def get_records (d : Instr → List Record) (b : SB) : SB × List Instr :=
  (get_buffer_instructions b).foldl
    (fun acc i =>
      let p := process_instr d acc.1 i
      (p.1, acc.2 ++ p.2))
    (b, [])

/-- `ScreenBuffer.clear` (lines 243-252): remember the old length
(0 for the `None` list only present during `__init__`), empty the
lines, clamp the position to 0, and notify observers exactly when the
buffer held lines.  The returned `Bool` records the notification. -/
def clear (b : SB) : SB × Bool :=
  let old_len := b.lines.length
  let b1 := set_position { b with lines := [] } 0
  (b1, decide (0 < old_len))

/-- `ScreenBuffer.start` (lines 254-263): raise `ValueError` when a
thread is already stored, otherwise reset the flags and spawn the
fetch thread.  `Except.error` models the raise, which happens before
any field is assigned, so the object is unchanged. -/
def start (b : SB) : Except String SB :=
  if b.thread then
    Except.error "ScreenBuffer driver is already started"
  else
    Except.ok { b with
      bottom_seen := some false
      stopped := some false
      invalid := some true
      thread := true }

/-- `ScreenBuffer.stop` (lines 265-273): drop the stored thread, set
the stopped flag, and (when a thread was stored) signal and join it;
the signal and join change no buffer field. -/
def stop (b : SB) : SB :=
  { b with thread := false, stopped := some true }

/-- The position invariant of the buffer (spec invariant 1 / property
P1): the first visible line index stays inside
`[0, max(len(lines) - page_size, 0)]`. -/
def PosInv (b : SB) : Prop :=
  0 ≤ b.position ∧ b.position ≤ max ((b.lines.length : Int) - b.page_size) 0

instance (b : SB) : Decidable (PosInv b) := by
  unfold PosInv; infer_instance

/-- The public operations of the buffer that mutate its state.  A
`getRecords` operation carries the driver's answer function for the
queries it opens. -/
inductive Op
  | prevLine
  | nextLine
  | prevPage
  | nextPage
  | prepend (r : Record)
  | append (r : Record)
  | clearOp
  | setPageSize (v : Int)
  | getRecords (d : Instr → List Record)

/-- The state transformation of one public operation. -/
def applyOp (b : SB) : Op → SB
  | .prevLine => go_to_previous_line b
  | .nextLine => go_to_next_line b
  | .prevPage => go_to_previous_page b
  | .nextPage => go_to_next_page b
  | .prepend r => (prepend_record b r).1
  | .append r => (append_record b r).1
  | .clearOp => (clear b).1
  | .setPageSize v => set_page_size b v
  | .getRecords d => (get_records d b).1

/-- Run a sequence of public operations from a state. -/
def runOps (ops : List Op) (b : SB) : SB :=
  ops.foldl applyOp b

/-- The state of the `Select` window's selection (windows.py lines
186-209): the fixed item count and the cursor position held by the
`ScreenCursor` collaborator. -/
structure SelectState where
  count : Int
  cursor_position : Int
deriving DecidableEq, Repr

/-- The `Select.position` setter (windows.py lines 205-209): raise
`IndexError` when the value is out of `[0, count)`, otherwise hand the
value to the cursor.  `Except.error` models the raise, which happens
before the cursor assignment, so the selection is unchanged.  The
`ScreenCursor.position` setter itself is not under src; on the
accepted path it is modelled as storing the value. -/
def select_set_position (s : SelectState) (val : Int) : Except String SelectState :=
  if val < 0 ∨ val ≥ s.count then
    Except.error "Invalid position"
  else
    Except.ok { s with cursor_position := val }

/-! ## Helper lemmas -/

theorem splitNl_ne_nil (cs : List Char) : splitNl cs ≠ [] := by
  induction cs with
  | nil => simp [splitNl]
  | cons c cs ih =>
    simp only [splitNl]
    split
    · simp
    · split <;> simp

theorem build_lines_ne_nil (rec : Record) : build_lines rec ≠ [] := by
  have h := splitNl_ne_nil rec.message
  simp only [build_lines, ne_eq, List.map_eq_nil_iff, List.enum_eq_nil]
  exact h

/-! ## Sample values used by witnesses and counterexamples -/

/-- A one-line sample record. -/
def recOne : Record := ⟨1, 0, 0, 0, 0, 0, ['x']⟩

/-- A three-line sample record, message `a\nb\nc`. -/
def recMulti : Record := ⟨42, 7, 3, 4, 5, 6, ['a', '\n', 'b', '\n', 'c']⟩

/-- A sample record with an empty message. -/
def recEmpty : Record := ⟨9, 0, 0, 0, 0, 0, []⟩

/-- A sample single line. -/
def lineOne (i : Int) : Line := mkLine ⟨i, 0, 0, 0, 0, 0, ['x']⟩ false

/-- A sample buffer holding `n` lines with ids `0..n-1`. -/
def sampleSB (page buf thr : Int) (n : Nat) (pos : Int) (bs : Option Bool) : SB :=
  { page_size := page
    buffer_size := buf
    low_buffer_threshold := thr
    lines := (List.range n).map (fun i => lineOne i)
    position := pos
    bottom_seen := bs
    stopped := none
    invalid := none
    thread := false }

/-! ## C7: record-to-lines expansion -/

/-- C7: expanding a record into lines is a pure total operation yielding
a finite ordered non-empty list with one `Line` per newline-separated
chunk of the message; every emitted line copies the record's scalar
fields; the first line is not a continuation and every later one is; an
empty message yields exactly one line. -/
theorem c7_build_lines_spec (rec : Record) :
    build_lines rec ≠ [] ∧
    (build_lines rec).map Line.message = splitNl rec.message ∧
    (∀ l ∈ build_lines rec, l.id = rec.id ∧ l.datetime = rec.datetime ∧
      l.host = rec.host ∧ l.program = rec.program ∧ l.facility = rec.facility ∧
      l.level = rec.level) ∧
    ((build_lines rec).head?).map Line.is_continuation = some false ∧
    (∀ (j : ℕ) (l : Line), (build_lines rec)[j + 1]? = some l →
      l.is_continuation = true) ∧
    (rec.message = [] → (build_lines rec).length = 1) := by
  obtain ⟨m, ms, hms⟩ := List.exists_cons_of_ne_nil (splitNl_ne_nil rec.message)
  refine ⟨build_lines_ne_nil rec, ?_, ?_, ?_, ?_, ?_⟩
  · simp only [build_lines, List.map_map]
    have : (Line.message ∘ fun p : ℕ × List Char =>
        mkLine { rec with message := p.2 } (decide (0 < p.1))) = Prod.snd := by
      funext p; simp [mkLine]
    rw [this, List.enum_map_snd]
  · intro l hl
    simp only [build_lines, List.mem_map] at hl
    obtain ⟨p, _, rfl⟩ := hl
    simp [mkLine]
  · simp [build_lines, hms, List.enum_cons, mkLine]
  · intro j l hl
    simp only [build_lines, List.getElem?_map, List.getElem?_enum] at hl
    rcases h : (splitNl rec.message)[j + 1]? with _ | a
    · rw [h] at hl; simp at hl
    · rw [h] at hl
      simp only [Option.map_some', Option.some.injEq] at hl
      rw [← hl]
      simp [mkLine]
  · intro h
    simp [build_lines, h, splitNl]

/-- Witness for C7 at the concrete records `recMulti` and `recEmpty`. -/
theorem c7_build_lines_witness :
    (build_lines recMulti).map Line.message = splitNl recMulti.message ∧
    (build_lines recMulti)[2]?.map Line.is_continuation = some true ∧
    (build_lines recEmpty).length = 1 := by
  have h := c7_build_lines_spec recMulti
  have he := c7_build_lines_spec recEmpty
  refine ⟨h.2.1, ?_, he.2.2.2.2.2 rfl⟩
  have h2 : (build_lines recMulti)[2]? =
      some (mkLine { recMulti with message := ['c'] } true) := by decide
  rw [h2, Option.map_some']
  exact congrArg some (h.2.2.2.2.1 1 _ h2)

/-! ## C10: size of the visible slice -/

/-- C10: with a positive page size and a position inside the invariant
range, the visible slice has exactly `min page_size (len lines)`
elements; in particular it never exceeds the page size and is non-empty
whenever the buffer is non-empty. -/
theorem c10_current_lines_length (b : SB)
    (hpage : 1 ≤ b.page_size)
    (hpos0 : 0 ≤ b.position)
    (hposM : b.position ≤ max ((b.lines.length : Int) - b.page_size) 0) :
    (get_current_lines b).length = min b.page_size.toNat b.lines.length ∧
    (get_current_lines b).length ≤ b.page_size.toNat ∧
    (b.lines ≠ [] → get_current_lines b ≠ []) := by
  have hlen : (get_current_lines b).length =
      min b.page_size.toNat (b.lines.length - b.position.toNat) := by
    simp [get_current_lines, List.length_take, List.length_drop]
  have hmin : min b.page_size.toNat (b.lines.length - b.position.toNat) =
      min b.page_size.toNat b.lines.length := by omega
  refine ⟨hlen.trans hmin, ?_, ?_⟩
  · rw [hlen.trans hmin]; exact Nat.min_le_left _ _
  · intro hne
    have h1 : 0 < b.lines.length := List.length_pos.mpr hne
    have h2 : 0 < (get_current_lines b).length := by
      rw [hlen.trans hmin]; omega
    exact fun hc => by simp [hc] at h2


/-- Witness for C10 on a buffer with 7 lines, page size 2, position 5. -/
theorem c10_current_lines_witness :
    (get_current_lines (sampleSB 2 5 2 7 5 none)).length = 2 := by
  have h := c10_current_lines_length (sampleSB 2 5 2 7 5 none)
    (by decide) (by decide) (by decide)
  simpa using h.1

/-! ## C6: clear -/

/-- C6 counterexample: on a buffer whose `bottom_seen` flag is `True`,
`clear()` leaves the flag `True`; it does not set it to `False` as the
claim states. -/
theorem c6_clear_counterexample :
    (clear (sampleSB 2 5 2 1 0 (some true))).1.bottom_seen ≠ some false ∧
    (clear (sampleSB 2 5 2 1 0 (some true))).1.bottom_seen = some true := by
  decide

/-- C6 amended: `clear()` empties the lines, resets the position to 0,
and notifies observers exactly when the buffer was non-empty; the
`bottom_seen` flag is left unchanged (`start()` is what resets it). -/
theorem c6_clear_spec (b : SB) :
    (clear b).1.lines = [] ∧
    (clear b).1.position = 0 ∧
    (clear b).1.bottom_seen = b.bottom_seen ∧
    ((clear b).2 = true ↔ b.lines ≠ []) := by
  have hmax : ¬ ((0 : Int) > max ((([] : List Line).length : Int) - b.page_size) 0) := by
    simp
  refine ⟨?_, ?_, ?_, ?_⟩
  · simp [clear, set_position, hmax]
  · simp [clear, set_position, hmax]
  · simp [clear, set_position, hmax]
  · simp only [clear, decide_eq_true_iff]
    rw [← List.length_pos]

/-- Witness for C6 amended on a concrete non-empty buffer. -/
theorem c6_clear_witness :
    (clear (sampleSB 2 5 2 3 1 (some true))).1.position = 0 ∧
    (clear (sampleSB 2 5 2 3 1 (some true))).2 = true := by
  have h := c6_clear_spec (sampleSB 2 5 2 3 1 (some true))
  exact ⟨h.2.1, h.2.2.2.mpr (by decide)⟩

/-! ## C4: append_record -/

/-- C4: `append_record` pushes the expanded lines to the back without
changing the position; observers are notified exactly when the line
count before the call was below the page size; and when the buffer
already filled a page (position inside the invariant range), the
visible slice is unchanged. -/
theorem c4_append_record_spec (b : SB) (r : Record) :
    (append_record b r).1.position = b.position ∧
    (append_record b r).1.lines = b.lines ++ build_lines r ∧
    ((append_record b r).2 = true ↔ (b.lines.length : Int) < b.page_size) ∧
    (0 ≤ b.position →
      b.position ≤ max ((b.lines.length : Int) - b.page_size) 0 →
      b.page_size ≤ (b.lines.length : Int) →
      get_current_lines (append_record b r).1 = get_current_lines b) := by
  refine ⟨rfl, rfl, by simp [append_record], ?_⟩
  intro h0 hM hfits
  rcases le_or_lt b.page_size 0 with hneg | hposi
  · have hz : b.page_size.toNat = 0 := Int.toNat_of_nonpos hneg
    have hps : (append_record b r).1.page_size = b.page_size := rfl
    show ((append_record b r).1.lines.drop
        (append_record b r).1.position.toNat).take (append_record b r).1.page_size.toNat
      = (b.lines.drop b.position.toNat).take b.page_size.toNat
    rw [hps, hz]
    simp
  · have hdrop : b.position.toNat ≤ b.lines.length := by omega
    have htake : b.page_size.toNat ≤ (b.lines.drop b.position.toNat).length := by
      simp only [List.length_drop]; omega
    show ((b.lines ++ build_lines r).drop b.position.toNat).take b.page_size.toNat
        = (b.lines.drop b.position.toNat).take b.page_size.toNat
    rw [List.drop_append_of_le_length hdrop, List.take_append_of_le_length htake]

/-- Witness for C4 on a concrete full buffer (3 lines, page size 2,
position 1). -/
theorem c4_append_record_witness :
    get_current_lines (append_record (sampleSB 2 5 2 3 1 none) recOne).1 =
      get_current_lines (sampleSB 2 5 2 3 1 none) ∧
    (append_record (sampleSB 2 5 2 3 1 none) recOne).2 = false := by
  have h := c4_append_record_spec (sampleSB 2 5 2 3 1 none) recOne
  exact ⟨h.2.2.2 (by decide) (by decide) (by decide), by decide⟩

/-! ## Clamping characterization -/

theorem set_position_position (b : SB) (x : Int) :
    (set_position b x).position =
      max 0 (min x (max ((b.lines.length : Int) - b.page_size) 0)) := by
  show (if x < 0 then { b with position := 0 }
    else if x > max ((b.lines.length : Int) - b.page_size) 0 then
      { b with position := max ((b.lines.length : Int) - b.page_size) 0 }
    else { b with position := x }).position = _
  split_ifs with h1 h2 <;> dsimp only <;> omega

theorem set_position_keeps (b : SB) (x : Int) :
    (set_position b x).page_size = b.page_size ∧
    (set_position b x).buffer_size = b.buffer_size ∧
    (set_position b x).low_buffer_threshold = b.low_buffer_threshold ∧
    (set_position b x).lines = b.lines ∧
    (set_position b x).bottom_seen = b.bottom_seen ∧
    (set_position b x).stopped = b.stopped ∧
    (set_position b x).invalid = b.invalid ∧
    (set_position b x).thread = b.thread := by
  unfold set_position
  dsimp only
  split_ifs <;> exact ⟨rfl, rfl, rfl, rfl, rfl, rfl, rfl, rfl⟩

/-! ## C3: prepend_record -/

/-- C3 counterexample: prepending a one-line record to an empty buffer
with page size 5 notifies the observers although the position shift is
zero (position stays 0), refuting the claim that observers are
notified exactly when the position shift is non-zero. -/
theorem c3_prepend_counterexample :
    ¬ (((prepend_record (sampleSB 5 25 5 0 0 none) recOne).2 = true) ↔
        (prepend_record (sampleSB 5 25 5 0 0 none) recOne).1.position -
          (sampleSB 5 25 5 0 0 none).position ≠ 0) := by
  decide

/-- C3 amended: `prepend_record(r)` with `r` expanding to `k` lines
puts the new lines in front, so the line at any index `j` before the
call is at index `j + k` after (in particular the one at `position`);
observers are notified exactly when the clamped new position differs
from `position + k`, i.e. (for a non-negative starting position)
exactly when `position + k` exceeds the new clamp bound
`max(len(lines) + k - page_size, 0)` — not when the position shift is
non-zero. -/
theorem c3_prepend_record_spec (b : SB) (r : Record) :
    (prepend_record b r).1.lines = build_lines r ++ b.lines ∧
    (∀ j : ℕ, (prepend_record b r).1.lines[j + (build_lines r).length]? = b.lines[j]?) ∧
    ((prepend_record b r).2 = true ↔
      (prepend_record b r).1.position ≠ b.position + ((build_lines r).length : Int)) ∧
    (0 ≤ b.position →
      ((prepend_record b r).2 = true ↔
        max (((b.lines.length : Int) + (build_lines r).length) - b.page_size) 0
          < b.position + (build_lines r).length)) := by
  have hpre : (prepend_record b r).1 =
      set_position { b with lines := build_lines r ++ b.lines }
        (b.position + ((build_lines r).length : Int)) := rfl
  have hnot : (prepend_record b r).2 =
      decide (b.position + ((build_lines r).length : Int) ≠
        (prepend_record b r).1.position) := rfl
  have hlen : (((build_lines r ++ b.lines).length : ℕ) : Int) =
      (b.lines.length : Int) + (build_lines r).length := by
    push_cast [List.length_append]
    ring
  have h1 : (prepend_record b r).1.lines = build_lines r ++ b.lines := by
    rw [hpre]
    exact (set_position_keeps _ _).2.2.2.1
  refine ⟨h1, ?_, ?_, ?_⟩
  · intro j
    rw [h1, List.getElem?_append_right (Nat.le_add_left _ j)]
    simp
  · rw [hnot, decide_eq_true_iff]
    exact ne_comm
  · intro h0
    rw [hnot, decide_eq_true_iff, hpre, set_position_position]
    dsimp only
    rw [hlen]
    omega

/-- Witness for C3 amended: a prepend that clamps (notifies) and one
that does not. -/
theorem c3_prepend_record_witness :
    ((prepend_record (sampleSB 5 25 5 0 0 none) recOne).2 = true ↔
      max ((((sampleSB 5 25 5 0 0 none).lines.length : Int) +
        (build_lines recOne).length) - 5) 0 < 0 + (build_lines recOne).length) ∧
    (prepend_record (sampleSB 5 25 5 0 0 none) recOne).1.lines[0 + (build_lines recOne).length]? =
      (sampleSB 5 25 5 0 0 none).lines[0]? := by
  have h := c3_prepend_record_spec (sampleSB 5 25 5 0 0 none) recOne
  exact ⟨h.2.2.2 (by decide), h.2.1 0⟩

/-! ## C1: the prefetch plan -/

/-- C1: on an empty buffer the plan is the single oversized descending
instruction; on a non-empty buffer it is the forward instruction
(anchored at the last line's id) exactly when
`position + page_size ≥ len(lines) − low_buffer_threshold`, followed by
the backward instruction (anchored at the first line's id) exactly when
`position ≤ low_buffer_threshold`, and nothing else.  The function is a
pure reader of the state: computing the plan changes nothing. -/
theorem c1_buffer_instructions_spec (b : SB) :
    (b.lines = [] → get_buffer_instructions b =
      [⟨none, true, b.buffer_size + b.page_size⟩]) ∧
    (b.lines ≠ [] → get_buffer_instructions b =
      (if b.position + b.page_size ≥ (b.lines.length : Int) - b.low_buffer_threshold then
        [⟨(b.lines.getLast?).map Line.id, false, b.buffer_size⟩]
      else []) ++
      (if b.position ≤ b.low_buffer_threshold then
        [⟨(b.lines.head?).map Line.id, true, b.buffer_size⟩]
      else [])) := by
  obtain ⟨ps, bs, th, lines, pos, btm, stp, inv, thr⟩ := b
  cases lines with
  | nil => exact ⟨fun _ => rfl, fun h => absurd rfl h⟩
  | cons l ls =>
    refine ⟨fun h => by simp at h, fun _ => ?_⟩
    rw [List.getLast?_eq_getLast (l :: ls) (List.cons_ne_nil l ls)]
    rfl

/-- Witness for C1: the empty-buffer plan and a concrete non-empty
plan with both instructions firing. -/
theorem c1_buffer_instructions_witness :
    get_buffer_instructions (sampleSB 2 5 2 0 0 none) = [⟨none, true, 7⟩] ∧
    get_buffer_instructions (sampleSB 2 5 2 5 2 none) =
      [⟨some 4, false, 5⟩, ⟨some 0, true, 5⟩] := by
  constructor
  · exact (c1_buffer_instructions_spec (sampleSB 2 5 2 0 0 none)).1 rfl
  · rw [(c1_buffer_instructions_spec (sampleSB 2 5 2 5 2 none)).2 (by decide)]
    decide

/-! ## Invariant preservation lemmas -/

theorem posInv_set_position (b : SB) (x : Int) : PosInv (set_position b x) := by
  unfold PosInv
  rw [set_position_position, (set_position_keeps b x).2.2.2.1,
    (set_position_keeps b x).1]
  omega

theorem posInv_invalidate (b : SB) (h : PosInv b) : PosInv (invalidate b) := h

theorem posInv_prepend (b : SB) (r : Record) : PosInv (prepend_record b r).1 :=
  posInv_set_position _ _

theorem posInv_append (b : SB) (r : Record) (h : PosInv b) :
    PosInv (append_record b r).1 := by
  obtain ⟨h1, h2⟩ := h
  refine ⟨h1, ?_⟩
  show b.position ≤ max (((b.lines ++ build_lines r).length : Int) - b.page_size) 0
  have hlen : (b.lines.length : Int) ≤ ((b.lines ++ build_lines r).length : Int) := by
    simp [List.length_append]
  omega

theorem posInv_clear (b : SB) : PosInv (clear b).1 :=
  posInv_set_position _ _

theorem posInv_set_page_size (b : SB) (v : Int) (h : PosInv b) :
    PosInv (set_page_size b v) := by
  unfold set_page_size check_page_size
  dsimp only
  split_ifs with hc
  · exact posInv_set_position _ _
  · refine ⟨h.1, ?_⟩
    dsimp only at hc ⊢
    omega

theorem posInv_drain (desc : Bool) (rs : List Record) (b : SB) (c : Int)
    (h : PosInv b) : PosInv (drain desc rs b c).1 := by
  induction rs generalizing b c with
  | nil => exact h
  | cons r rs ih =>
    show PosInv (drain desc rs
      (if desc then (prepend_record b r).1 else (append_record b r).1) (c - 1)).1
    apply ih
    cases desc with
    | false => simpa using posInv_append b r h
    | true => simpa using posInv_prepend b r

theorem posInv_process_instr (d : Instr → List Record) (b : SB) (i : Instr)
    (h : PosInv b) : PosInv (process_instr d b i).1 := by
  unfold process_instr
  split_ifs with hc
  · exact h
  · dsimp only
    split_ifs with hp
    · exact posInv_drain i.desc (d i) b i.count h
    · exact posInv_drain i.desc (d i) b i.count h

theorem posInv_foldl_process (d : Instr → List Record) :
    ∀ (plan : List Instr) (b : SB) (acc : List Instr), PosInv b →
      PosInv ((plan.foldl
        (fun acc2 i =>
          let p := process_instr d acc2.1 i
          (p.1, acc2.2 ++ p.2)) (b, acc)).1) := by
  intro plan
  induction plan with
  | nil => intro b acc h; exact h
  | cons i is ih =>
    intro b acc h
    simp only [List.foldl_cons]
    exact ih _ _ (posInv_process_instr d b i h)

theorem posInv_get_records (d : Instr → List Record) (b : SB) (h : PosInv b) :
    PosInv (get_records d b).1 :=
  posInv_foldl_process d (get_buffer_instructions b) b [] h

theorem posInv_applyOp (b : SB) (op : Op) (h : PosInv b) :
    PosInv (applyOp b op) := by
  cases op with
  | prevLine => exact posInv_invalidate _ (posInv_set_position _ _)
  | nextLine => exact posInv_invalidate _ (posInv_set_position _ _)
  | prevPage => exact posInv_invalidate _ (posInv_set_position _ _)
  | nextPage => exact posInv_invalidate _ (posInv_set_position _ _)
  | prepend r => exact posInv_prepend b r
  | append r => exact posInv_append b r h
  | clearOp => exact posInv_clear b
  | setPageSize v => exact posInv_set_page_size b v h
  | getRecords d => exact posInv_get_records d b h

/-! ## C5: the position invariant -/

/-- C5: starting from a buffer constructed with a positive page size,
after any sequence of public operations (with page-size assignments
kept positive, as the claim requires) the position satisfies
`0 ≤ position ≤ max(0, len(lines) − page_size)`; every position write
goes through the clamp and page-size assignment re-clamps. -/
theorem c5_position_invariant (p bs t : Int) (hp : 1 ≤ p) (ops : List Op)
    (hv : ∀ v : Int, Op.setPageSize v ∈ ops → 1 ≤ v) :
    PosInv (runOps ops (screenBufferInit p bs t)) := by
  have hinit : PosInv (screenBufferInit p bs t) := by
    refine ⟨le_refl 0, ?_⟩
    show (0 : Int) ≤ max ((([] : List Line).length : Int) - p) 0
    simp
  have hgen : ∀ (l : List Op) (b : SB), PosInv b → PosInv (runOps l b) := by
    intro l
    induction l with
    | nil => intro b h; exact h
    | cons op l ih =>
      intro b h
      exact ih _ (posInv_applyOp b op h)
  exact hgen ops _ hinit

/-- Witness for C5 on a concrete operation sequence. -/
theorem c5_position_invariant_witness :
    PosInv (runOps [Op.nextPage, Op.prepend recMulti, Op.prevLine, Op.clearOp,
      Op.append recOne, Op.setPageSize 3] (screenBufferInit 2 10 2)) := by
  apply c5_position_invariant 2 10 2 (by decide)
  intro v h
  simp only [List.mem_cons, List.not_mem_nil, or_false] at h
  rcases h with h | h | h | h | h | h
  all_goals cases h
  decide

/-! ## C2: get_records -/

/-- The record-at-a-time folding of one drained stream as the claim
describes it: each record of the stream is prepended when the
instruction is descending and appended otherwise. -/
def stream_fold (d : Instr → List Record) (i : Instr) (b : SB) : SB :=
  (d i).foldl
    (fun s r => if i.desc then (prepend_record s r).1 else (append_record s r).1) b

theorem drain_fst (desc : Bool) (rs : List Record) (b : SB) (c : Int) :
    (drain desc rs b c).1 =
      rs.foldl
        (fun s r => if desc then (prepend_record s r).1 else (append_record s r).1)
        b := by
  induction rs generalizing b c with
  | nil => rfl
  | cons r rs ih =>
    show (drain desc rs
      (if desc then (prepend_record b r).1 else (append_record b r).1) (c - 1)).1 = _
    rw [ih]
    rfl

theorem drain_snd (desc : Bool) (rs : List Record) (b : SB) (c : Int) :
    (drain desc rs b c).2 = c - rs.length := by
  induction rs generalizing b c with
  | nil => simp [drain]
  | cons r rs ih =>
    show (drain desc rs
      (if desc then (prepend_record b r).1 else (append_record b r).1) (c - 1)).2 = _
    rw [ih]
    push_cast [List.length_cons]
    ring

theorem get_records_foldl_aux (d : Instr → List Record) :
    ∀ (plan : List Instr) (b : SB) (acc : List Instr),
      ((plan.foldl
        (fun acc2 i =>
          let p := process_instr d acc2.1 i
          (p.1, acc2.2 ++ p.2)) (b, acc)).1)
      = plan.foldl (fun s j => (process_instr d s j).1) b := by
  intro plan
  induction plan with
  | nil => intro b acc; rfl
  | cons i is ih =>
    intro b acc
    simp only [List.foldl_cons]
    exact ih _ _

/-- C2: `get_records` computes the plan once and processes each
instruction in plan order; a descending instruction is skipped entirely
(no query opened, state unchanged) exactly when `bottom_seen` is
already set; otherwise one query is opened and the stream is drained
one record at a time, prepending when descending and appending
otherwise; and `bottom_seen` is set when the stream produced fewer than
`count` records, regardless of direction. -/
theorem c2_get_records_spec (d : Instr → List Record) (b : SB) (i : Instr) :
    ((get_records d b).1 =
      (get_buffer_instructions b).foldl (fun s j => (process_instr d s j).1) b) ∧
    (i.desc = true → b.bottom_seen = some true → process_instr d b i = (b, [])) ∧
    (¬ (i.desc = true ∧ b.bottom_seen = some true) →
      (process_instr d b i).2 = [i] ∧
      (process_instr d b i).1 =
        (if ((d i).length : Int) < i.count then
          { stream_fold d i b with bottom_seen := some true }
        else stream_fold d i b)) := by
  refine ⟨get_records_foldl_aux d (get_buffer_instructions b) b [], ?_, ?_⟩
  · intro h1 h2
    unfold process_instr
    rw [if_pos ⟨h1, h2⟩]
  · intro hns
    unfold process_instr
    rw [if_neg hns]
    dsimp only
    refine ⟨rfl, ?_⟩
    rw [drain_snd, drain_fst]
    rcases lt_or_ge ((d i).length : Int) i.count with hlt | hge
    · rw [if_pos (by omega), if_pos hlt]
      rfl
    · rw [if_neg (by omega), if_neg (by omega)]
      rfl

/-- A concrete driver answering every query with one record. -/
def driverOne : Instr → List Record := fun _ => [recOne]

/-- Witness for C2: a skipped descending instruction past the known
bottom, and a processed ascending instruction that opens its query. -/
theorem c2_get_records_witness :
    process_instr driverOne (sampleSB 2 5 2 3 0 (some true)) ⟨some 2, true, 5⟩ =
      (sampleSB 2 5 2 3 0 (some true), []) ∧
    (process_instr driverOne (sampleSB 2 5 2 3 0 none) ⟨some 2, false, 5⟩).2 =
      [⟨some 2, false, 5⟩] := by
  have h1 := c2_get_records_spec driverOne (sampleSB 2 5 2 3 0 (some true))
    ⟨some 2, true, 5⟩
  have h2 := c2_get_records_spec driverOne (sampleSB 2 5 2 3 0 none)
    ⟨some 2, false, 5⟩
  exact ⟨h1.2.1 rfl rfl, (h2.2.2 (by simp)).1⟩

/-! ## C8: stop on an idle buffer -/

/-- C8 counterexample: `stop()` on a freshly constructed (idle, never
started) buffer does change state: the stopped flag goes from `None`
to `True`. -/
theorem c8_stop_counterexample :
    (screenBufferInit 2 10 2).thread = false ∧
    stop (screenBufferInit 2 10 2) ≠ screenBufferInit 2 10 2 := by
  decide

/-- C8 amended: `stop()` on an idle buffer returns without error and
leaves every field except the stopped flag unchanged (the flag is set
to `True`); in particular on a buffer that has already been stopped the
state is entirely unchanged. -/
theorem c8_stop_idle_spec (b : SB) (hidle : b.thread = false) :
    (stop b).page_size = b.page_size ∧
    (stop b).buffer_size = b.buffer_size ∧
    (stop b).low_buffer_threshold = b.low_buffer_threshold ∧
    (stop b).lines = b.lines ∧
    (stop b).position = b.position ∧
    (stop b).bottom_seen = b.bottom_seen ∧
    (stop b).invalid = b.invalid ∧
    (stop b).thread = b.thread ∧
    (stop b).stopped = some true ∧
    (b.stopped = some true → stop b = b) := by
  refine ⟨rfl, rfl, rfl, rfl, rfl, rfl, rfl, hidle.symm, rfl, ?_⟩
  intro hstopped
  obtain ⟨ps, bs, th, lines, pos, btm, stp, inv, thr⟩ := b
  simp only at hidle hstopped
  simp [stop, hidle, hstopped]

/-- Witness for C8 on a concrete already-stopped buffer. -/
theorem c8_stop_idle_witness :
    stop (stop (screenBufferInit 2 10 2)) = stop (screenBufferInit 2 10 2) :=
  (c8_stop_idle_spec (stop (screenBufferInit 2 10 2)) rfl).2.2.2.2.2.2.2.2.2 rfl

/-! ## C9: invalid arguments fail loudly without changing state -/

/-- C9: `start()` on a running buffer raises (the model returns the
error before any field is written, so the state is unchanged), and
assigning an out-of-range value to the Select window's position raises
`IndexError` before the cursor assignment, leaving the selection
unchanged. -/
theorem c9_invalid_argument_spec (b : SB) (s : SelectState) (v : Int)
    (hb : b.thread = true) (hv : v < 0 ∨ v ≥ s.count) :
    start b = Except.error "ScreenBuffer driver is already started" ∧
    select_set_position s v = Except.error "Invalid position" := by
  constructor
  · unfold start
    rw [if_pos hb]
  · unfold select_set_position
    rw [if_pos hv]

/-- Witness for C9 on a running buffer and a 3-item selection asked to
move to index 3. -/
theorem c9_invalid_argument_witness :
    select_set_position ⟨3, 0⟩ 3 = Except.error "Invalid position" ∧
    start { screenBufferInit 2 10 2 with thread := true } =
      Except.error "ScreenBuffer driver is already started" := by
  have h := c9_invalid_argument_spec
    { screenBufferInit 2 10 2 with thread := true } ⟨3, 0⟩ 3 rfl
    (Or.inr (by decide))
  exact ⟨h.2, h.1⟩

end LogViewer
